import Mathlib

/-!
Verification of the pdfkit-markdown renderer (`src/index.ts`).

The renderer walks an mdast syntax tree and issues operations to a
pdfkit document.  We embed the tree type, the renderer's mutable state
(the pdfkit cursor `doc.x`/`doc.y`, the style flags `bold`, `italic`,
`strike`, `link`, and the nesting counters `listIndent`,
`blockquoteIndex`), and every handler method as a pure state-passing
function.  The pdfkit document is an external collaborator: we record
every call issued to it in an operation trace (`Op`), model the
explicit cursor assignments the renderer performs, and take the page
geometry and `widthOfString` as parameters (`Env`).  Numbers are
modelled as rationals.  A thrown `Error` is modelled as an `Except`
error carrying both the message and the renderer/document state at the
moment of the throw (the document keeps whatever was already emitted,
and the renderer instance keeps its mutated fields).
-/

namespace PdfkitMarkdown

/-- Kinds of mdast nodes distinguished by the `switch` in `handleChild`.
`other` is the default case: any node kind outside the supported set,
identified by its `type` string; the renderer never recurses into it.
List items never pass through `handleChild` (the list handler iterates
them directly), so a `list` carries the children lists of its items. -/
inductive MDNode : Type where
  | blockquote (children : List MDNode)
  | heading (depth : Nat) (children : List MDNode)
  | link (url : String) (children : List MDNode)
  | paragraph (children : List MDNode)
  | text (value : String)
  | hardBreak
  | strong (children : List MDNode)
  | emphasis (children : List MDNode)
  | list (ordered : Bool) (start : Option Int) (items : List (List MDNode))
  | delete (children : List MDNode)
  | thematicBreak
  | code (value : String)
  | inlineCode (value : String)
  | other (kind : String)

/-- Options record passed to `doc.text`.  A field is `none` when the
corresponding option is not mentioned in the call. `link := some v`
records that the option was passed with value `v` (itself an option,
since the renderer passes `this.link : string | null`). -/
structure TextOpts where
  continued : Option Bool := none
  link : Option (Option String) := none
  underline : Option Bool := none
  strike : Option Bool := none
  paragraphGap : Option ℚ := none
  lineBreak : Option Bool := none
deriving DecidableEq

/-- One operation issued to the pdfkit document (the DocumentSink). -/
inductive Op : Type where
  | setFontSize (size : ℚ)
  | setFont (name : String)
  | text (value : String) (opts : TextOpts)
  | textAt (value : String) (x : ℚ) (opts : TextOpts)
  | moveTo (x y : ℚ)
  | lineTo (x y : ℚ)
  | stroke (color : String)
  | circle (x y r : ℚ)
  | fill (color : String)
deriving DecidableEq

/-- Configuration record, mirroring `PdfkitMarkdownSettings`. -/
structure Settings where
  blockQuoteIndent : ℚ
  paragraphGap : ℚ
  listItemGap : ℚ
  listItemIndentOffsetOrdered : ℚ
  listItemIndentOrdered : ℚ
  listItemIndentOffsetUnordered : ℚ
  listItemIndentUnordered : ℚ
  codeFont : String
  normalFont : String
  boldFont : String
  italicFont : String
  boldItalicFont : String
  fontSize : ℚ
  headerFontSize : Nat → ℚ
  headerFontName : Nat → String
  headerGapBefore : Nat → ℚ
  headerGapAfter : Nat → ℚ
  throwOnUnsupported : Bool

/-- Default settings from the `MarkdownRenderer` field initializer. -/
def defaultSettings : Settings where
  blockQuoteIndent := 7
  paragraphGap := 8
  listItemGap := 4
  listItemIndentOffsetOrdered := 7
  listItemIndentOrdered := 14
  listItemIndentOffsetUnordered := 7
  listItemIndentUnordered := 14
  codeFont := "Courier"
  normalFont := "Helvetica"
  boldItalicFont := "Helvetica-BoldOblique"
  boldFont := "Helvetica-Bold"
  italicFont := "Helvetica-Oblique"
  headerFontName := fun _ => "Helvetica-Bold"
  headerFontSize := fun h => 20 - (h : ℚ) * (3 / 2)
  headerGapBefore := fun _ => 12
  headerGapAfter := fun _ => 8
  fontSize := 10
  throwOnUnsupported := false

/-- Read-only environment: the settings plus the external page geometry
(`doc.page.margins.left`, `doc.page.margins.right`, `doc.page.width`)
and the external font metric `doc.widthOfString`. -/
structure Env where
  settings : Settings
  marginLeft : ℚ
  marginRight : ℚ
  pageWidth : ℚ
  widthOf : String → ℚ

/-- Mutable state of one `MarkdownRenderer` instance together with the
document cursor: `x`/`y` are `doc.x`/`doc.y`, `ops` is the trace of
operations issued to the document so far, and the remaining fields are
the instance fields `listIndent`, `bold`, `italic`, `link`, `strike`,
`blockquoteIndex`. -/
structure RState where
  x : ℚ
  y : ℚ
  ops : List Op
  listIndent : Int
  bold : Bool
  italic : Bool
  link : Option String
  strike : Bool
  blockquoteIndex : Int
deriving DecidableEq

/-- Error thrown by the default case of `handleChild`. -/
structure RenderError where
  message : String
deriving DecidableEq

/-- Result of a handler: either the updated state, or a thrown error
together with the state at the moment of the throw (the document keeps
the operations already emitted; the instance keeps its fields). -/
abbrev RResult := Except (RenderError × RState) RState

instance {e a : Type} [DecidableEq e] [DecidableEq a] : DecidableEq (Except e a) :=
  fun x y =>
    match x, y with
    | .ok u, .ok v => if h : u = v then .isTrue (by rw [h]) else .isFalse (by simp [h])
    | .error u, .error v => if h : u = v then .isTrue (by rw [h]) else .isFalse (by simp [h])
    | .ok _, .error _ => .isFalse (by simp)
    | .error _, .ok _ => .isFalse (by simp)

/-- Sequencing of handler calls: an exception aborts everything after it. -/
def rbind (r : RResult) (f : RState → RResult) : RResult :=
  match r with
  | .ok s => f s
  | .error e => .error e

/-- State carried by a result: the final state on success, the state at
the throw on failure. -/
def stateOf (r : RResult) : RState :=
  match r with
  | .ok s => s
  | .error (_, s) => s

/-- Append one operation to the document trace. -/
def emit (o : Op) (s : RState) : RState :=
  { s with ops := s.ops ++ [o] }

/-- Font selected by `updateFont` from the bold/italic flags. -/
def currentFont (settings : Settings) (s : RState) : String :=
  if s.bold && s.italic then settings.boldItalicFont
  else if s.bold then settings.boldFont
  else if s.italic then settings.italicFont
  else settings.normalFont

/-- The `updateFont` method: re-select the font derived from the flags. -/
def updateFont (env : Env) (s : RState) : RState :=
  emit (.setFont (currentFont env.settings s)) s

/-- JavaScript `list.start || 1`: `null`/`undefined` and the falsy
number `0` both fall back to `1`. -/
def startOrDefault : Option Int → Int
  | none => 1
  | some v => if v = 0 then 1 else v

/-- Membership in the JavaScript regular-expression class `[\s\r\n]`
(`\s` already contains `\r` and `\n`): the ECMAScript whitespace and
line-terminator characters. -/
def isJsWhitespace (c : Char) : Bool :=
  let n := c.toNat
  n = 9 || n = 10 || n = 11 || n = 12 || n = 13 || n = 32 ||
  n = 160 || n = 0x1680 || (0x2000 ≤ n && n ≤ 0x200a) ||
  n = 0x2028 || n = 0x2029 || n = 0x202f || n = 0x205f ||
  n = 0x3000 || n = 0xfeff

/-- Global replacement `value.replace(/[\s\r\n]+/g, " ")` on a character
list, written as a left-to-right scan: the flag records whether the
previous character was whitespace, so that each maximal whitespace run
contributes exactly one space. -/
def collapseRuns (prevWs : Bool) : List Char → List Char
  | [] => []
  | c :: rest =>
    if isJsWhitespace c then
      if prevWs then collapseRuns true rest
      else ' ' :: collapseRuns true rest
    else c :: collapseRuns false rest

/-- Whitespace collapsing applied by `handleText` to the text value. -/
def collapseWs (v : String) : String :=
  ⟨collapseRuns false v.data⟩

/-- Restatement of the specification's wording for the whitespace rule,
generic in the whitespace predicate: on meeting a whitespace character,
emit one space and drop the whole maximal run it starts. -/
def collapseSpecP (p : Char → Bool) : List Char → List Char
  | [] => []
  | c :: rest =>
    if p c then
      ' ' :: collapseSpecP p (rest.dropWhile p)
    else c :: collapseSpecP p rest
termination_by l => l.length
decreasing_by
  · exact Nat.lt_succ_of_le (List.Sublist.length_le (List.dropWhile_sublist _))
  · exact Nat.lt_succ_of_le (Nat.le_refl _)

/-- The specification's wording ("collapses any run of whitespace in
the literal value to a single space") at the JavaScript whitespace
class. Proven equal to `collapseRuns false`. -/
def collapseSpec (l : List Char) : List Char :=
  collapseSpecP isJsWhitespace l

/-- Entry actions of `handleBlockquote`: increment `blockquoteIndex`
and set `doc.x` to the left margin plus the new depth times the indent. -/
def bqEnter (env : Env) (s : RState) : RState :=
  let s1 := { s with blockquoteIndex := s.blockquoteIndex + 1 }
  { s1 with
    x := env.marginLeft + (s1.blockquoteIndex : ℚ) * env.settings.blockQuoteIndent }

/-- Exit actions of `handleBlockquote`: decrement `blockquoteIndex` and
reset `doc.x` to the left margin plus the decremented depth times the indent. -/
def bqExit (env : Env) (s : RState) : RState :=
  let s1 := { s with blockquoteIndex := s.blockquoteIndex - 1 }
  { s1 with
    x := env.marginLeft + (s1.blockquoteIndex : ℚ) * env.settings.blockQuoteIndent }

/-- Indent computed by `handleListItemOrdered` from the current list
nesting depth. -/
def orderedItemIndent (env : Env) (listIndent : Int) : ℚ :=
  env.marginLeft + ((listIndent - 1 : Int) : ℚ) * env.settings.listItemIndentOrdered +
    env.settings.listItemIndentOffsetOrdered

/-- Indent computed by `handleListItem` from the current list nesting
depth. -/
def unorderedItemIndent (env : Env) (listIndent : Int) : ℚ :=
  env.marginLeft + ((listIndent - 1 : Int) : ℚ) * env.settings.listItemIndentUnordered +
    env.settings.listItemIndentOffsetUnordered

/-- The `handleText` method: collapse whitespace runs in the value, then
emit it as continued text carrying the active link (underlined iff a
link is active) and the strike flag. -/
def handleText (_env : Env) (value : String) (s : RState) : RResult :=
  .ok (emit (.text (collapseWs value)
    { continued := some true, link := some s.link,
      underline := some s.link.isSome, strike := some s.strike }) s)

/-- The `handleBreak` method: a forced line break with zero paragraph gap. -/
def handleBreak (_env : Env) (s : RState) : RResult :=
  .ok (emit (.text "\n" { paragraphGap := some 0 }) s)

/-- The `handleInlineCode` method. -/
def handleInlineCode (env : Env) (value : String) (s : RState) : RResult :=
  .ok (updateFont env (emit (.text value { continued := some true })
    (emit (.setFont env.settings.codeFont) s)))

/-- The `handleCode` method. -/
def handleCode (env : Env) (value : String) (s : RState) : RResult :=
  .ok (updateFont env (emit (.text value {})
    (emit (.setFont env.settings.codeFont) s)))

mutual

/-- The dispatcher `handleChild`: one arm per supported node kind, with
the recursive handler bodies inlined; the default arm throws when
`throwOnUnsupported` is set and is a no-op otherwise. -/
def handleChild (env : Env) : MDNode → RState → RResult
  | .blockquote cs, s =>
    rbind (handleChildren env cs (bqEnter env s)) fun u => .ok (bqExit env u)
  | .heading d cs, s =>
    let s1 := emit (.setFontSize (env.settings.headerFontSize d))
      (emit (.setFont (env.settings.headerFontName d))
        { s with y := s.y + env.settings.headerGapBefore d })
    rbind (handleChildren env cs s1) fun u =>
      let u1 := emit (.setFontSize env.settings.fontSize)
        (updateFont env (emit (.text "\n" {}) u))
      .ok { u1 with y := u1.y + env.settings.headerGapAfter d }
  | .link url cs, s =>
    rbind (handleChildren env cs { s with link := some url }) fun u =>
      .ok { u with link := none }
  | .paragraph cs, s =>
    rbind (handleChildren env cs s) fun u =>
      .ok (emit (.text "\n"
        { paragraphGap := some (if 0 < u.listIndent
            then env.settings.listItemGap else env.settings.paragraphGap) }) u)
  | .text v, s => handleText env v s
  | .hardBreak, s => handleBreak env s
  | .strong cs, s =>
    rbind (handleChildren env cs (updateFont env { s with bold := true })) fun u =>
      .ok (updateFont env { u with bold := false })
  | .emphasis cs, s =>
    rbind (handleChildren env cs (updateFont env { s with italic := true })) fun u =>
      .ok (updateFont env { u with italic := false })
  | .list ordered start items, s =>
    let s1 : RState := { s with listIndent := s.listIndent + 1 }
    rbind (if ordered then handleItemsOrdered env items (startOrDefault start) s1
           else handleItemsUnordered env items s1) fun u =>
      let u1 : RState := { u with listIndent := u.listIndent - 1 }
      .ok (if u1.listIndent = 0
        then { u1 with
          y := u1.y + (env.settings.paragraphGap - env.settings.listItemGap) }
        else u1)
  | .delete cs, s =>
    rbind (handleChildren env cs { s with strike := true }) fun u =>
      .ok { u with strike := false }
  | .thematicBreak, s =>
    .ok (emit (.text "\n" { paragraphGap := some 0 })
      (emit (.stroke "black")
        (emit (.lineTo (env.pageWidth - env.marginRight) s.y)
          (emit (.moveTo env.marginLeft s.y) s))))
  | .code v, s => handleCode env v s
  | .inlineCode v, s => handleInlineCode env v s
  | .other kind, s =>
    if env.settings.throwOnUnsupported then
      .error ({ message := "Unsupported markdown feature " ++ kind }, s)
    else .ok s

/-- The child loop `for (const c of children) this.handleChild(c)`. -/
def handleChildren (env : Env) : List MDNode → RState → RResult
  | [], s => .ok s
  | c :: rest, s => rbind (handleChild env c s) fun s' => handleChildren env rest s'

/-- The ordered branch of `handleList`: each item handled by
`handleListItemOrdered` (body inlined here) with a counter incremented
once per item regardless of the item's content. -/
def handleItemsOrdered (env : Env) : List (List MDNode) → Int → RState → RResult
  | [], _, s => .ok s
  | item :: rest, i, s =>
    rbind
      (let indent := orderedItemIndent env s.listIndent
       let s1 : RState :=
         { emit (.textAt (toString i ++ ".") indent { continued := some true }) s with
           x := indent }
       let s2 := emit (.text "" { lineBreak := some false }) s1
       let s3 : RState :=
         { s2 with x := (max (indent + env.widthOf (toString i ++ ". "))
            (indent + env.settings.listItemIndentOrdered)) }
       rbind (handleChildren env item s3) fun u => .ok { u with x := env.marginLeft })
      fun s' => handleItemsOrdered env rest (i + 1) s'

/-- The unordered branch of `handleList`: each item handled by
`handleListItem` (body inlined here). -/
def handleItemsUnordered (env : Env) : List (List MDNode) → RState → RResult
  | [], s => .ok s
  | item :: rest, s =>
    rbind
      (let indent := unorderedItemIndent env s.listIndent
       let s1 : RState := { s with x := indent + env.settings.listItemIndentUnordered }
       let s2 := emit (.text "" { continued := some true }) s1
       let s3 := emit (.fill "black") (emit (.circle (indent + 1) (s2.y + 4) 1) s2)
       rbind (handleChildren env item s3) fun u => .ok { u with x := env.marginLeft })
      fun s' => handleItemsUnordered env rest s'

end

/-- The `handleBlockquote` method as a named function. -/
def handleBlockquote (env : Env) (cs : List MDNode) (s : RState) : RResult :=
  rbind (handleChildren env cs (bqEnter env s)) fun u => .ok (bqExit env u)

/-- The `handleDelete` method as a named function. -/
def handleDelete (env : Env) (cs : List MDNode) (s : RState) : RResult :=
  rbind (handleChildren env cs { s with strike := true }) fun u =>
    .ok { u with strike := false }

/-- The `handleLink` method as a named function. -/
def handleLink (env : Env) (url : String) (cs : List MDNode) (s : RState) : RResult :=
  rbind (handleChildren env cs { s with link := some url }) fun u =>
    .ok { u with link := none }

/-- The `handleBold` method as a named function. -/
def handleBold (env : Env) (cs : List MDNode) (s : RState) : RResult :=
  rbind (handleChildren env cs (updateFont env { s with bold := true })) fun u =>
    .ok (updateFont env { u with bold := false })

/-- The `handleItalic` method as a named function. -/
def handleItalic (env : Env) (cs : List MDNode) (s : RState) : RResult :=
  rbind (handleChildren env cs (updateFont env { s with italic := true })) fun u =>
    .ok (updateFont env { u with italic := false })

/-- The `handleParagraph` method as a named function. -/
def handleParagraph (env : Env) (cs : List MDNode) (s : RState) : RResult :=
  rbind (handleChildren env cs s) fun u =>
    .ok (emit (.text "\n"
      { paragraphGap := some (if 0 < u.listIndent
          then env.settings.listItemGap else env.settings.paragraphGap) }) u)

/-- The `handleList` method as a named function. -/
def handleList (env : Env) (ordered : Bool) (start : Option Int)
    (items : List (List MDNode)) (s : RState) : RResult :=
  let s1 : RState := { s with listIndent := s.listIndent + 1 }
  rbind (if ordered then handleItemsOrdered env items (startOrDefault start) s1
         else handleItemsUnordered env items s1) fun u =>
    let u1 : RState := { u with listIndent := u.listIndent - 1 }
    .ok (if u1.listIndent = 0
      then { u1 with
        y := u1.y + (env.settings.paragraphGap - env.settings.listItemGap) }
      else u1)

/-- The `handleListItemOrdered` method as a named function: emit the
numeral label followed by a literal period at the computed indent (the
continued/empty-text pair around it reproduces the page-break hack),
set `doc.x` past the label, recurse, and reset `doc.x` to the left
margin. -/
def handleListItemOrdered (env : Env) (item : List MDNode) (i : Int)
    (s : RState) : RResult :=
  let indent := orderedItemIndent env s.listIndent
  let s1 : RState :=
    { emit (.textAt (toString i ++ ".") indent { continued := some true }) s with
      x := indent }
  let s2 := emit (.text "" { lineBreak := some false }) s1
  let s3 : RState :=
    { s2 with x := (max (indent + env.widthOf (toString i ++ ". "))
       (indent + env.settings.listItemIndentOrdered)) }
  rbind (handleChildren env item s3) fun u => .ok { u with x := env.marginLeft }

/-- The `handleListItem` method as a named function: set `doc.x` past
the bullet position, emit the empty continued text (page-break hack),
draw and fill the bullet, recurse, and reset `doc.x` to the left margin. -/
def handleListItem (env : Env) (item : List MDNode) (s : RState) : RResult :=
  let indent := unorderedItemIndent env s.listIndent
  let s1 : RState := { s with x := indent + env.settings.listItemIndentUnordered }
  let s2 := emit (.text "" { continued := some true }) s1
  let s3 := emit (.fill "black") (emit (.circle (indent + 1) (s2.y + 4) 1) s2)
  rbind (handleChildren env item s3) fun u => .ok { u with x := env.marginLeft }

/-- Baseline setup performed by `render` before dispatching the
top-level children: set the base font size and re-derive the font. -/
def renderSetup (env : Env) (s : RState) : RState :=
  updateFont env (emit (.setFontSize env.settings.fontSize) s)

/-- The `render` entry point on the root's children. -/
def render (env : Env) (children : List MDNode) (s : RState) : RResult :=
  handleChildren env children (renderSetup env s)

/-- Does the node fall outside the supported kind set (default switch case)? -/
def isUnsupported : MDNode → Bool
  | .other _ => true
  | _ => false

/-- Strings of the positioned text operations in a trace; the ordered
list labels are the only positioned `doc.text` calls the renderer makes. -/
def textAtStrings (ops : List Op) : List String :=
  ops.filterMap fun o =>
    match o with
    | .textAt v _ _ => some v
    | _ => none

/-- Concrete environment for witnesses and counterexamples: default
settings, US-letter-like geometry, a constant string-width metric. -/
def env0 : Env where
  settings := defaultSettings
  marginLeft := 72
  marginRight := 72
  pageWidth := 612
  widthOf := fun _ => 10

/-- env0 with the report-unsupported policy enabled. -/
def envThrow : Env :=
  { env0 with settings := { defaultSettings with throwOnUnsupported := true } }

/-- Concrete initial state: fresh renderer fields, a recognizable
cursor position. -/
def init0 : RState where
  x := 999
  y := 0
  ops := []
  listIndent := 0
  bold := false
  italic := false
  link := none
  strike := false
  blockquoteIndex := 0

/-- Relation between the style context before a subtree visit and after
it: the nesting counters are restored exactly, while each boolean flag
can only have moved towards `false` (and the link towards `none`) —
which is exact restoration precisely when the pre-visit value was
`false`/`none`. -/
def StyleRestored (s t : RState) : Prop :=
  t.listIndent = s.listIndent ∧ t.blockquoteIndex = s.blockquoteIndex ∧
  (t.bold = true → s.bold = true) ∧ (t.italic = true → s.italic = true) ∧
  (t.strike = true → s.strike = true) ∧ (t.link = none ∨ t.link = s.link)

/-- A block quote nested `d` levels deep around a single content node. -/
def nestedQuote : Nat → MDNode → MDNode
  | 0, c => c
  | d + 1, c => .blockquote [nestedQuote d c]

/-- State from which the inner node of `emphasis [emphasis []]` is
dispatched when the outer node is rendered from `init0`: the outer
handler has set the italic flag and re-selected the font. -/
def c1Pre : RState :=
  updateFont env0 { init0 with italic := true }

/-- Result state of visiting the inner `emphasis []` subtree from
`c1Pre`. -/
def c1Post : RState :=
  stateOf (handleChild env0 (.emphasis []) c1Pre)

/-- State after the sibling preceding the unsupported node in the C3
witness has been rendered. -/
def c3Mid : RState :=
  stateOf (handleChildren envThrow [.text "hello"] (renderSetup envThrow init0))

/-- Nested styled tree whose innermost node is unsupported: a quote
containing a list whose single item holds
`strong > emphasis > delete > link > other "html"`. -/
def c10Tree : MDNode :=
  .blockquote [.list false none [[.strong [.emphasis [.delete [.link "u" [.other "html"]]]]]]]

/-- Renderer state carried by the error thrown while rendering
`c10Tree` under the report policy. -/
def c10Leak : RState :=
  stateOf (handleChild envThrow c10Tree init0)

theorem rbind_ok {r : RResult} {f : RState → RResult} {t : RState} :
    rbind r f = .ok t ↔ ∃ m, r = .ok m ∧ f m = .ok t := by
  cases r <;> simp [rbind]

theorem rbind_congr {r : RResult} {f g : RState → RResult}
    (h : ∀ m, f m = g m) : rbind r f = rbind r g := by
  cases r <;> simp [rbind, h]

theorem rbind_assoc (r : RResult) (f g : RState → RResult) :
    rbind (rbind r f) g = rbind r fun m => rbind (f m) g := by
  cases r <;> simp [rbind]

theorem rbind_pure (r : RResult) : (rbind r fun m => .ok m) = r := by
  cases r <;> simp [rbind]

theorem handleChildren_append (env : Env) (as bs : List MDNode) (s : RState) :
    handleChildren env (as ++ bs) s
      = rbind (handleChildren env as s) fun m => handleChildren env bs m := by
  induction as generalizing s with
  | nil => simp [handleChildren, rbind]
  | cons c rest ih =>
    simp only [List.cons_append, handleChildren, rbind_assoc]
    exact rbind_congr fun m => ih m

theorem handleChildren_singleton (env : Env) (c : MDNode) (s : RState) :
    handleChildren env [c] s = handleChild env c s := by
  simp only [handleChildren]
  exact rbind_pure _

theorem styleRestored_refl (s : RState) : StyleRestored s s := by
  simp [StyleRestored]

theorem styleRestored_trans {s m t : RState}
    (h1 : StyleRestored s m) (h2 : StyleRestored m t) : StyleRestored s t := by
  obtain ⟨a1, b1, c1, d1, e1, f1⟩ := h1
  obtain ⟨a2, b2, c2, d2, e2, f2⟩ := h2
  refine ⟨by omega, by omega, fun h => c1 (c2 h), fun h => d1 (d2 h),
    fun h => e1 (e2 h), ?_⟩
  rcases f2 with f2 | f2
  · exact Or.inl f2
  · rw [f2]; exact f1

theorem sr_style_eq {s t : RState} (h1 : t.listIndent = s.listIndent)
    (h2 : t.blockquoteIndex = s.blockquoteIndex) (h3 : t.bold = s.bold)
    (h4 : t.italic = s.italic) (h5 : t.strike = s.strike)
    (h6 : t.link = s.link) : StyleRestored s t := by
  refine ⟨h1, h2, ?_, ?_, ?_, Or.inr h6⟩ <;> intro h
  · rw [h3] at h; exact h
  · rw [h4] at h; exact h
  · rw [h5] at h; exact h

theorem styleRestoredAll (N : Nat) :
    (∀ n : MDNode, sizeOf n ≤ N → ∀ (env : Env) (s t : RState),
        handleChild env n s = .ok t → StyleRestored s t) ∧
    (∀ cs : List MDNode, sizeOf cs ≤ N → ∀ (env : Env) (s t : RState),
        handleChildren env cs s = .ok t → StyleRestored s t) ∧
    (∀ items : List (List MDNode), sizeOf items ≤ N → ∀ (env : Env) (i : Int)
        (s t : RState), handleItemsOrdered env items i s = .ok t →
        StyleRestored s t) ∧
    (∀ items : List (List MDNode), sizeOf items ≤ N → ∀ (env : Env) (s t : RState),
        handleItemsUnordered env items s = .ok t → StyleRestored s t) := by
  induction N with
  | zero =>
    refine ⟨fun n hn => ?_, fun cs hcs => ?_, fun items hi => ?_, fun items hi => ?_⟩
    · cases n <;> simp at hn
    · cases cs <;> simp at hcs
    · cases items <;> simp at hi
    · cases items <;> simp at hi
  | succ N ih =>
    obtain ⟨ihN, ihL, ihO, ihU⟩ := ih
    refine ⟨?_, ?_, ?_, ?_⟩
    · intro n hn env s t h
      cases n with
      | blockquote cs =>
        simp only [handleChild] at h
        rw [rbind_ok] at h
        obtain ⟨u, hu, ht⟩ := h
        simp only [Except.ok.injEq] at ht
        subst ht
        have hsz : sizeOf cs ≤ N := by simp at hn; omega
        have hcs := ihL cs hsz env _ u hu
        simp only [StyleRestored, bqEnter, bqExit] at hcs ⊢
        obtain ⟨a, b, c, d, e, f⟩ := hcs
        exact ⟨by omega, by omega, c, d, e, f⟩
      | heading d cs =>
        simp only [handleChild] at h
        rw [rbind_ok] at h
        obtain ⟨u, hu, ht⟩ := h
        simp only [Except.ok.injEq] at ht
        subst ht
        have hsz : sizeOf cs ≤ N := by simp at hn; omega
        have hcs := ihL cs hsz env _ u hu
        simp only [StyleRestored, emit, updateFont] at hcs ⊢
        obtain ⟨a, b, c, d, e, f⟩ := hcs
        exact ⟨by omega, by omega, c, d, e, f⟩
      | link url cs =>
        simp only [handleChild] at h
        rw [rbind_ok] at h
        obtain ⟨u, hu, ht⟩ := h
        simp only [Except.ok.injEq] at ht
        subst ht
        have hsz : sizeOf cs ≤ N := by simp at hn; omega
        have hcs := ihL cs hsz env _ u hu
        obtain ⟨a, b, c, d, e, _⟩ := hcs
        exact ⟨a, b, c, d, e, Or.inl rfl⟩
      | paragraph cs =>
        simp only [handleChild] at h
        rw [rbind_ok] at h
        obtain ⟨u, hu, ht⟩ := h
        simp only [Except.ok.injEq] at ht
        subst ht
        have hsz : sizeOf cs ≤ N := by simp at hn; omega
        have hcs := ihL cs hsz env _ u hu
        simp only [StyleRestored, emit] at hcs ⊢
        obtain ⟨a, b, c, d, e, f⟩ := hcs
        exact ⟨by omega, by omega, c, d, e, f⟩
      | text v =>
        simp only [handleChild, handleText, emit, Except.ok.injEq] at h
        subst h
        simp [StyleRestored]
      | hardBreak =>
        simp only [handleChild, handleBreak, emit, Except.ok.injEq] at h
        subst h
        simp [StyleRestored]
      | strong cs =>
        simp only [handleChild] at h
        rw [rbind_ok] at h
        obtain ⟨u, hu, ht⟩ := h
        simp only [Except.ok.injEq] at ht
        subst ht
        have hsz : sizeOf cs ≤ N := by simp at hn; omega
        have hcs := ihL cs hsz env _ u hu
        simp only [StyleRestored, emit, updateFont] at hcs ⊢
        obtain ⟨a, b, c, d, e, f⟩ := hcs
        exact ⟨by omega, by omega, by simp, d, e, f⟩
      | emphasis cs =>
        simp only [handleChild] at h
        rw [rbind_ok] at h
        obtain ⟨u, hu, ht⟩ := h
        simp only [Except.ok.injEq] at ht
        subst ht
        have hsz : sizeOf cs ≤ N := by simp at hn; omega
        have hcs := ihL cs hsz env _ u hu
        simp only [StyleRestored, emit, updateFont] at hcs ⊢
        obtain ⟨a, b, c, d, e, f⟩ := hcs
        exact ⟨by omega, by omega, c, by simp, e, f⟩
      | list ordered start items =>
        simp only [handleChild] at h
        rw [rbind_ok] at h
        obtain ⟨u, hu, ht⟩ := h
        simp only [Except.ok.injEq] at ht
        subst ht
        have hsz : sizeOf items ≤ N := by simp at hn; omega
        have hloop : StyleRestored { s with listIndent := s.listIndent + 1 } u := by
          split at hu
          · exact ihO items hsz env _ _ u hu
          · exact ihU items hsz env _ u hu
        obtain ⟨a, b, c, d, e, f⟩ := hloop
        have a' : u.listIndent = s.listIndent + 1 := a
        split <;>
          exact ⟨by show u.listIndent - 1 = s.listIndent; omega, b, c, d, e, f⟩
      | delete cs =>
        simp only [handleChild] at h
        rw [rbind_ok] at h
        obtain ⟨u, hu, ht⟩ := h
        simp only [Except.ok.injEq] at ht
        subst ht
        have hsz : sizeOf cs ≤ N := by simp at hn; omega
        have hcs := ihL cs hsz env _ u hu
        simp only [StyleRestored] at hcs ⊢
        obtain ⟨a, b, c, d, e, f⟩ := hcs
        exact ⟨by omega, by omega, c, d, by simp, f⟩
      | thematicBreak =>
        simp only [handleChild, emit, Except.ok.injEq] at h
        subst h
        simp [StyleRestored]
      | code v =>
        simp only [handleChild, handleCode, emit, updateFont, Except.ok.injEq] at h
        subst h
        simp [StyleRestored]
      | inlineCode v =>
        simp only [handleChild, handleInlineCode, emit, updateFont,
          Except.ok.injEq] at h
        subst h
        simp [StyleRestored]
      | other kind =>
        simp only [handleChild] at h
        split at h
        · simp at h
        · simp only [Except.ok.injEq] at h
          subst h
          exact styleRestored_refl s
    · intro cs hcs env s t h
      cases cs with
      | nil =>
        simp only [handleChildren, Except.ok.injEq] at h
        subst h
        exact styleRestored_refl s
      | cons c rest =>
        simp only [handleChildren] at h
        rw [rbind_ok] at h
        obtain ⟨m, hm, hrest⟩ := h
        have h1 : sizeOf c ≤ N := by simp at hcs; omega
        have h2 : sizeOf rest ≤ N := by simp at hcs; omega
        exact styleRestored_trans (ihN c h1 env s m hm) (ihL rest h2 env m t hrest)
    · intro items hi env i s t h
      cases items with
      | nil =>
        simp only [handleItemsOrdered, Except.ok.injEq] at h
        subst h
        exact styleRestored_refl s
      | cons item rest =>
        simp only [handleItemsOrdered] at h
        rw [rbind_ok] at h
        obtain ⟨m, hm, hrest⟩ := h
        have h1 : sizeOf item ≤ N := by simp at hi; omega
        have h2 : sizeOf rest ≤ N := by simp at hi; omega
        simp only [rbind_ok, Except.ok.injEq] at hm
        obtain ⟨u, hu, hm'⟩ := hm
        subst hm'
        have hmid := ihL item h1 env _ u hu
        have hsm : StyleRestored s { u with x := env.marginLeft } := by
          refine styleRestored_trans (t := u) ?_ (sr_style_eq rfl rfl rfl rfl rfl rfl)
          exact styleRestored_trans
            (sr_style_eq (s := s) rfl rfl rfl rfl rfl rfl) hmid
        exact styleRestored_trans hsm (ihO rest h2 env _ _ t hrest)
    · intro items hi env s t h
      cases items with
      | nil =>
        simp only [handleItemsUnordered, Except.ok.injEq] at h
        subst h
        exact styleRestored_refl s
      | cons item rest =>
        simp only [handleItemsUnordered] at h
        rw [rbind_ok] at h
        obtain ⟨m, hm, hrest⟩ := h
        have h1 : sizeOf item ≤ N := by simp at hi; omega
        have h2 : sizeOf rest ≤ N := by simp at hi; omega
        simp only [rbind_ok, Except.ok.injEq] at hm
        obtain ⟨u, hu, hm'⟩ := hm
        subst hm'
        have hmid := ihL item h1 env _ u hu
        have hsm : StyleRestored s { u with x := env.marginLeft } := by
          refine styleRestored_trans (t := u) ?_ (sr_style_eq rfl rfl rfl rfl rfl rfl)
          exact styleRestored_trans
            (sr_style_eq (s := s) rfl rfl rfl rfl rfl rfl) hmid
        exact styleRestored_trans hsm (ihU rest h2 env _ t hrest)

theorem handleChild_styleRestored (env : Env) (n : MDNode) (s t : RState)
    (h : handleChild env n s = .ok t) : StyleRestored s t :=
  (styleRestoredAll (sizeOf n)).1 n le_rfl env s t h

theorem handleChildren_styleRestored (env : Env) (cs : List MDNode) (s t : RState)
    (h : handleChildren env cs s = .ok t) : StyleRestored s t :=
  (styleRestoredAll (sizeOf cs)).2.1 cs le_rfl env s t h

theorem handleItemsOrdered_styleRestored (env : Env) (items : List (List MDNode))
    (i : Int) (s t : RState) (h : handleItemsOrdered env items i s = .ok t) :
    StyleRestored s t :=
  (styleRestoredAll (sizeOf items)).2.2.1 items le_rfl env i s t h

theorem handleItemsUnordered_styleRestored (env : Env) (items : List (List MDNode))
    (s t : RState) (h : handleItemsUnordered env items s = .ok t) :
    StyleRestored s t :=
  (styleRestoredAll (sizeOf items)).2.2.2 items le_rfl env s t h

theorem bqEnter_iter_bq (env : Env) (d : Nat) (s : RState) :
    ((bqEnter env)^[d] s).blockquoteIndex = s.blockquoteIndex + d := by
  induction d with
  | zero => simp
  | succ e ih =>
    rw [Function.iterate_succ_apply']
    show ((bqEnter env)^[e] s).blockquoteIndex + 1 = s.blockquoteIndex + (e + 1 : Nat)
    rw [ih]
    push_cast
    ring

theorem bqEnter_iter_x (env : Env) (d : Nat) (s : RState) (hd : 1 ≤ d) :
    ((bqEnter env)^[d] s).x
      = env.marginLeft
        + ((s.blockquoteIndex + d : Int) : ℚ) * env.settings.blockQuoteIndent := by
  cases d with
  | zero => omega
  | succ e =>
    rw [Function.iterate_succ_apply']
    show env.marginLeft + ((((bqEnter env)^[e] s).blockquoteIndex + 1 : Int) : ℚ)
        * env.settings.blockQuoteIndent = _
    rw [bqEnter_iter_bq]
    push_cast
    ring

theorem bqExit_iter_bq (env : Env) (d : Nat) (u : RState) :
    ((bqExit env)^[d] u).blockquoteIndex = u.blockquoteIndex - d := by
  induction d with
  | zero => simp
  | succ e ih =>
    rw [Function.iterate_succ_apply']
    show ((bqExit env)^[e] u).blockquoteIndex - 1 = u.blockquoteIndex - (e + 1 : Nat)
    rw [ih]
    push_cast
    ring

theorem bqExit_iter_x (env : Env) (d : Nat) (u : RState) (hd : 1 ≤ d) :
    ((bqExit env)^[d] u).x
      = env.marginLeft
        + ((u.blockquoteIndex - d : Int) : ℚ) * env.settings.blockQuoteIndent := by
  cases d with
  | zero => omega
  | succ e =>
    rw [Function.iterate_succ_apply']
    show env.marginLeft + ((((bqExit env)^[e] u).blockquoteIndex - 1 : Int) : ℚ)
        * env.settings.blockQuoteIndent = _
    rw [bqExit_iter_bq]
    norm_cast
    push_cast
    ring

theorem handleChild_nestedQuote (env : Env) (d : Nat) (c : MDNode) (s : RState) :
    handleChild env (nestedQuote d c) s
      = Except.map ((bqExit env)^[d])
          (handleChild env c ((bqEnter env)^[d] s)) := by
  induction d generalizing s with
  | zero =>
    simp only [nestedQuote, Function.iterate_zero, id]
    cases h : handleChild env c s <;> simp [Except.map, h]
  | succ e ih =>
    show rbind (handleChildren env [nestedQuote e c] (bqEnter env s))
        (fun u => .ok (bqExit env u)) = _
    rw [handleChildren_singleton, ih (bqEnter env s),
      ← Function.iterate_succ_apply]
    cases handleChild env c ((bqEnter env)^[e + 1] s) <;>
      simp [rbind, Except.map, Function.iterate_succ_apply']

theorem handleListItemOrdered_eq (env : Env) (item : List MDNode) (i : Int)
    (s : RState) :
    handleListItemOrdered env item i s
      = rbind (handleChildren env item
          { s with
            ops := s.ops ++
              [Op.textAt (toString i ++ ".") (orderedItemIndent env s.listIndent)
                 { continued := some true },
               Op.text "" { lineBreak := some false }],
            x := orderedItemIndent env s.listIndent
              + max (env.widthOf (toString i ++ ". "))
                  env.settings.listItemIndentOrdered })
          fun u => .ok { u with x := env.marginLeft } := by
  show rbind (handleChildren env item _) _ = rbind (handleChildren env item _) _
  congr 2
  all_goals simp [emit, max_add_add_left]

theorem handleChild_unsupported (env : Env)
    (hthrow : env.settings.throwOnUnsupported = false) (c : MDNode)
    (hc : isUnsupported c = true) (s : RState) : handleChild env c s = .ok s := by
  obtain ⟨k, rfl⟩ : ∃ k, c = .other k := by
    cases c
    all_goals simp [isUnsupported] at hc ⊢
  simp [handleChild, hthrow]

theorem handleChildren_unsupported (env : Env)
    (hthrow : env.settings.throwOnUnsupported = false) (cs : List MDNode)
    (hall : ∀ c ∈ cs, isUnsupported c = true) (s : RState) :
    handleChildren env cs s = .ok s := by
  induction cs with
  | nil => rfl
  | cons c rest ih =>
    have hc := hall c (List.mem_cons_self c rest)
    have hrest := fun x hx => hall x (List.mem_cons_of_mem c hx)
    show rbind (handleChild env c s) _ = _
    rw [handleChild_unsupported env hthrow c hc s]
    show handleChildren env rest s = .ok s
    exact ih hrest

theorem collapseRuns_true_eq (l : List Char) :
    collapseRuns true l = collapseRuns false (l.dropWhile isJsWhitespace) := by
  induction l with
  | nil => rfl
  | cons c rest ih =>
    by_cases hc : isJsWhitespace c
    · simp [collapseRuns, hc, List.dropWhile_cons, ih]
    · simp [collapseRuns, hc, List.dropWhile_cons]

theorem collapseRuns_eq_spec (l : List Char) :
    collapseRuns false l = collapseSpec l := by
  have main : ∀ (N : Nat) (l : List Char), l.length ≤ N →
      collapseRuns false l = collapseSpec l := by
    intro N
    induction N with
    | zero =>
      intro l hl
      have : l = [] := List.length_eq_zero.mp (Nat.le_zero.mp hl)
      subst this
      show collapseRuns false [] = collapseSpecP isJsWhitespace []
      rw [collapseSpecP]
      rfl
    | succ N ih =>
      intro l hl
      cases l with
      | nil =>
        show collapseRuns false [] = collapseSpecP isJsWhitespace []
        rw [collapseSpecP]
        rfl
      | cons c rest =>
        show collapseRuns false (c :: rest) = collapseSpecP isJsWhitespace (c :: rest)
        rw [collapseSpecP]
        by_cases hc : isJsWhitespace c
        · rw [if_pos hc]
          simp only [collapseRuns, hc, if_true, Bool.false_eq_true, if_false]
          rw [collapseRuns_true_eq]
          congr 1
          refine ih _ (le_trans (List.Sublist.length_le (List.dropWhile_sublist _)) ?_)
          simpa using hl
        · rw [if_neg hc]
          simp only [collapseRuns, hc, Bool.false_eq_true, if_false]
          congr 1
          refine ih rest ?_
          simpa using hl
  exact main l.length l le_rfl

/-- Claim C1, counterexample: the claim fails for a node nested inside
another node of the same kind.  Rendering `emphasis [emphasis []]` from
`init0`, the inner `emphasis` subtree is visited from `c1Pre` (italic
flag `true`, set by the outer handler), yet after that subtree the
italic flag is `false`, not its pre-visit value `true`. -/
theorem c1_flag_not_restored_cex :
    handleChild env0 (.emphasis [.emphasis []]) init0
      = rbind (handleChild env0 (.emphasis []) c1Pre) (fun u =>
          .ok (updateFont env0 { u with italic := false }))
    ∧ c1Pre.italic = true
    ∧ handleChild env0 (.emphasis []) c1Pre = .ok c1Post
    ∧ c1Post.italic = false := by
  refine ⟨?_, rfl, rfl, rfl⟩
  show rbind (handleChildren env0 [.emphasis []]
        (updateFont env0 { init0 with italic := true }))
      (fun u => .ok (updateFont env0 { u with italic := false }))
    = rbind (handleChild env0 (.emphasis []) c1Pre)
      (fun u => .ok (updateFont env0 { u with italic := false }))
  rw [handleChildren_singleton]
  rfl

/-- Claim C1 (amended): on every successful subtree visit the nesting
counters (list depth, quote depth) are restored to exactly their
pre-visit values, and each boolean flag (bold, italic, strike) and the
link target are restored exactly whenever their pre-visit value was
`false`/`none` — i.e. whenever the node is not nested inside another
node of the same kind; the handlers clear them to `false`/`none`
unconditionally on exit. -/
theorem c1_style_restoration_amended (env : Env) (n : MDNode) (s t : RState)
    (h : handleChild env n s = .ok t) :
    t.listIndent = s.listIndent ∧ t.blockquoteIndex = s.blockquoteIndex
    ∧ (s.bold = false → t.bold = false)
    ∧ (s.italic = false → t.italic = false)
    ∧ (s.strike = false → t.strike = false)
    ∧ (s.link = none → t.link = none) := by
  obtain ⟨a, b, c, d, e, f⟩ := handleChild_styleRestored env n s t h
  refine ⟨a, b, ?_, ?_, ?_, ?_⟩
  · intro hs
    cases hb : t.bold
    · rfl
    · rw [c hb] at hs; exact Bool.noConfusion hs
  · intro hs
    cases hb : t.italic
    · rfl
    · rw [d hb] at hs; exact Bool.noConfusion hs
  · intro hs
    cases hb : t.strike
    · rfl
    · rw [e hb] at hs; exact Bool.noConfusion hs
  · intro hnone
    rcases f with f | f
    · exact f
    · rw [f, hnone]

/-- Claim C1 witness: a bold subtree visited from the fresh state has
all style fields restored. -/
theorem c1_style_restoration_amended_witness :
    (stateOf (handleChild env0 (.strong [.text "x"]) init0)).listIndent
        = init0.listIndent
    ∧ (stateOf (handleChild env0 (.strong [.text "x"]) init0)).blockquoteIndex
        = init0.blockquoteIndex
    ∧ (stateOf (handleChild env0 (.strong [.text "x"]) init0)).bold = false
    ∧ (stateOf (handleChild env0 (.strong [.text "x"]) init0)).italic = false
    ∧ (stateOf (handleChild env0 (.strong [.text "x"]) init0)).strike = false
    ∧ (stateOf (handleChild env0 (.strong [.text "x"]) init0)).link = none := by
  have h := c1_style_restoration_amended env0 (.strong [.text "x"]) init0
    (stateOf (handleChild env0 (.strong [.text "x"]) init0)) rfl
  exact ⟨h.1, h.2.1, h.2.2.1 rfl, h.2.2.2.1 rfl, h.2.2.2.2.1 rfl, h.2.2.2.2.2 rfl⟩

/-- Claim C2, counterexample: rendering a tree whose only child is an
unsupported node under the default configuration does emit operations:
`render` always issues the baseline font-size and font-selection
operations before dispatching any child, so the trace is not empty. -/
theorem c2_nonzero_ops_cex :
    render env0 [.other "table"] init0
      = .ok { init0 with ops := [Op.setFontSize 10, Op.setFont "Helvetica"] }
    ∧ ([Op.setFontSize 10, Op.setFont "Helvetica"] : List Op) ≠ [] := by
  exact ⟨rfl, by simp⟩

/-- Claim C2 (amended): for every tree whose dispatched children all
have kinds outside the supported set, rendering under the default
configuration (from a state with the bold/italic flags clear) raises no
error and emits no operations beyond the baseline font-size and font
reset that `render` itself always performs. -/
theorem c2_unsupported_only_amended (ml mr pw : ℚ) (w : String → ℚ)
    (children : List MDNode) (s : RState)
    (hall : ∀ c ∈ children, isUnsupported c = true)
    (hb : s.bold = false) (hi : s.italic = false) :
    render { settings := defaultSettings, marginLeft := ml, marginRight := mr,
             pageWidth := pw, widthOf := w } children s
      = .ok { s with
          ops := s.ops ++ [Op.setFontSize 10, Op.setFont "Helvetica"] } := by
  unfold render
  rw [handleChildren_unsupported _ rfl children hall]
  unfold renderSetup
  simp [updateFont, currentFont, emit, hb, hi, defaultSettings]

/-- Claim C2 witness: two unsupported children, fresh state. -/
theorem c2_unsupported_only_amended_witness :
    render { settings := defaultSettings, marginLeft := 72, marginRight := 72,
             pageWidth := 612, widthOf := fun _ => 10 }
        [.other "table", .other "image"] init0
      = .ok { init0 with
          ops := init0.ops ++ [Op.setFontSize 10, Op.setFont "Helvetica"] } := by
  refine c2_unsupported_only_amended 72 72 612 (fun _ => 10)
    [.other "table", .other "image"] init0 ?_ rfl rfl
  simp [isUnsupported]

/-- Claim C3: with `throwOnUnsupported = true`, once the siblings before
an unsupported node have been processed, dispatching that node raises
an error whose message carries the node's kind, the whole render pass
returns that error, and the document state carried at the failure is
exactly the state after the preceding siblings — no operations for the
following siblings were emitted. -/
theorem c3_first_unsupported_aborts (env : Env) (pre post : List MDNode)
    (k : String) (s s1 : RState)
    (hthrow : env.settings.throwOnUnsupported = true)
    (hpre : handleChildren env pre (renderSetup env s) = .ok s1) :
    render env (pre ++ .other k :: post) s
      = .error ({ message := "Unsupported markdown feature " ++ k }, s1) := by
  unfold render
  rw [handleChildren_append, hpre]
  show handleChildren env (.other k :: post) s1 = _
  show rbind (handleChild env (.other k) s1) _ = _
  have hk : handleChild env (.other k) s1
      = .error ({ message := "Unsupported markdown feature " ++ k }, s1) := by
    simp [handleChild, hthrow]
  rw [hk]
  rfl

/-- Claim C3 witness: text, unsupported "image", text. -/
theorem c3_first_unsupported_aborts_witness :
    render envThrow ([.text "hello"] ++ .other "image" :: [.text "world"]) init0
      = .error ({ message := "Unsupported markdown feature " ++ "image" }, c3Mid) :=
  c3_first_unsupported_aborts envThrow [.text "hello"] [.text "world"] "image"
    init0 c3Mid rfl rfl

/-- Claim C4: for a block quote nested to depth `d ≥ 1` (starting from
quote depth 0), the innermost content is dispatched from a state whose
horizontal cursor is exactly the left margin plus `d` times
`blockQuoteIndent`; and when the render of the nested quote succeeds,
the cursor ends at exactly the left margin (offset 0) with the quote
depth back at 0. -/
theorem c4_blockquote_indent (env : Env) (d : Nat) (c : MDNode) (s : RState)
    (hd : 1 ≤ d) (hbq : s.blockquoteIndex = 0) :
    handleChild env (nestedQuote d c) s
      = Except.map ((bqExit env)^[d])
          (handleChild env c ((bqEnter env)^[d] s))
    ∧ ((bqEnter env)^[d] s).x
        = env.marginLeft + (d : ℚ) * env.settings.blockQuoteIndent
    ∧ ∀ t, handleChild env (nestedQuote d c) s = .ok t →
        t.x = env.marginLeft ∧ t.blockquoteIndex = 0 := by
  refine ⟨handleChild_nestedQuote env d c s, ?_, ?_⟩
  · rw [bqEnter_iter_x env d s hd, hbq]
    push_cast
    ring
  · intro t ht
    rw [handleChild_nestedQuote] at ht
    cases hr : handleChild env c ((bqEnter env)^[d] s) with
    | error e => rw [hr] at ht; simp [Except.map] at ht
    | ok u =>
      rw [hr] at ht
      simp only [Except.map, Except.ok.injEq] at ht
      subst ht
      have hu : u.blockquoteIndex = d := by
        have hsr := handleChild_styleRestored env c _ u hr
        have hb := hsr.2.1
        rw [bqEnter_iter_bq, hbq] at hb
        omega
      constructor
      · rw [bqExit_iter_x env d u hd, hu]
        push_cast
        ring
      · rw [bqExit_iter_bq]
        omega

/-- Claim C4 witness: depth 3 around a skipped node from `init0`. -/
theorem c4_blockquote_indent_witness :
    ((bqEnter env0)^[3] init0).x
        = env0.marginLeft + (3 : ℚ) * env0.settings.blockQuoteIndent
    ∧ (stateOf (handleChild env0 (nestedQuote 3 (.other "zz")) init0)).x
        = env0.marginLeft
    ∧ (stateOf (handleChild env0 (nestedQuote 3 (.other "zz")) init0)).blockquoteIndex
        = 0 := by
  obtain ⟨-, h2, h3⟩ :=
    c4_blockquote_indent env0 3 (.other "zz") init0 (by norm_num) rfl
  obtain ⟨hx, hb⟩ := h3 (stateOf (handleChild env0 (nestedQuote 3 (.other "zz")) init0)) rfl
  exact ⟨h2, hx, hb⟩

/-- Claim C5, counterexample: a declared list start of 0 is falsy in
JavaScript (`list.start || 1`), so an ordered list with `start = 0`
emits the label "1.", not "0." as the claim's "starting at the list's
declared start value" requires. -/
theorem c5_start_zero_cex :
    textAtStrings (stateOf (handleChild env0
        (.list true (some 0) [[]]) init0)).ops = ["1."]
    ∧ (["1."] : List String) ≠ ["0."] := by
  exact ⟨rfl, by simp⟩

/-- Claim C5 (amended): ordered-list numbering starts at the declared
start value when it is present and nonzero, and at 1 when it is absent
or 0 (JavaScript falsy); the counter passed to each successive item is
incremented by one regardless of the item's content; each item first
emits the positioned label `toString i ++ "."`; and the list with
`start = 5` and 3 items emits exactly the labels "5.", "6.", "7.". -/
theorem c5_ordered_labels_amended :
    (∀ v : Int, startOrDefault (some v) = if v = 0 then 1 else v)
    ∧ startOrDefault none = 1
    ∧ (∀ (env : Env) (st : Option Int) (items : List (List MDNode)) (s : RState),
        handleChild env (.list true st items) s
          = rbind (handleItemsOrdered env items (startOrDefault st)
              { s with listIndent := s.listIndent + 1 }) fun u =>
              .ok (if u.listIndent - 1 = 0
                then { u with
                       listIndent := u.listIndent - 1
                       y := u.y + (env.settings.paragraphGap
                         - env.settings.listItemGap) }
                else { u with listIndent := u.listIndent - 1 }))
    ∧ (∀ (env : Env) (item : List MDNode) (rest : List (List MDNode)) (i : Int)
        (s : RState),
        handleItemsOrdered env (item :: rest) i s
          = rbind (handleListItemOrdered env item i s) fun m =>
              handleItemsOrdered env rest (i + 1) m)
    ∧ (∀ (env : Env) (item : List MDNode) (i : Int) (s : RState),
        handleListItemOrdered env item i s
          = rbind (handleChildren env item
              { s with
                ops := s.ops ++
                  [Op.textAt (toString i ++ ".")
                     (orderedItemIndent env s.listIndent)
                     { continued := some true },
                   Op.text "" { lineBreak := some false }],
                x := orderedItemIndent env s.listIndent
                  + max (env.widthOf (toString i ++ ". "))
                      env.settings.listItemIndentOrdered })
              fun u => .ok { u with x := env.marginLeft })
    ∧ textAtStrings (stateOf (handleChild env0
        (.list true (some 5) [[], [], []]) init0)).ops = ["5.", "6.", "7."] := by
  refine ⟨fun v => rfl, rfl, fun env st items s => rfl, fun env item rest i s => rfl,
    handleListItemOrdered_eq, rfl⟩

/-- Claim C6: for an ordered item at the current nesting depth, after
the numeral label is placed the item content is dispatched with the
horizontal cursor at the item indent plus the larger of the label's
rendered width (measured on `i ++ ". "`) and the configured per-depth
indent; and after each item, ordered or unordered, the cursor is
restored to the left margin. -/
theorem c6_list_item_cursor (env : Env) (item : List MDNode) (i : Int)
    (s : RState) :
    (handleListItemOrdered env item i s
      = rbind (handleChildren env item
          { s with
            ops := s.ops ++
              [Op.textAt (toString i ++ ".") (orderedItemIndent env s.listIndent)
                 { continued := some true },
               Op.text "" { lineBreak := some false }],
            x := orderedItemIndent env s.listIndent
              + max (env.widthOf (toString i ++ ". "))
                  env.settings.listItemIndentOrdered })
          fun u => .ok { u with x := env.marginLeft })
    ∧ (∀ t, handleListItemOrdered env item i s = .ok t → t.x = env.marginLeft)
    ∧ (∀ t, handleListItem env item s = .ok t → t.x = env.marginLeft) := by
  refine ⟨handleListItemOrdered_eq env item i s, ?_, ?_⟩
  · intro t ht
    rw [handleListItemOrdered_eq] at ht
    rw [rbind_ok] at ht
    obtain ⟨u, -, hu⟩ := ht
    simp only [Except.ok.injEq] at hu
    subst hu
    rfl
  · intro t ht
    simp only [handleListItem, rbind_ok, Except.ok.injEq] at ht
    obtain ⟨u, -, hu⟩ := ht
    subst hu
    rfl

/-- Claim C6 witness: empty items from `init0`. -/
theorem c6_list_item_cursor_witness :
    (stateOf (handleListItemOrdered env0 [] 5 init0)).x = env0.marginLeft
    ∧ (stateOf (handleListItem env0 [] init0)).x = env0.marginLeft := by
  obtain ⟨-, h2, h3⟩ := c6_list_item_cursor env0 [] 5 init0
  exact ⟨h2 (stateOf (handleListItemOrdered env0 [] 5 init0)) rfl,
    h3 (stateOf (handleListItem env0 [] init0)) rfl⟩

/-- Claim C7: the paragraph handler first recurses into the children
and then emits exactly one line break whose paragraph-gap option is
`listItemGap` when the list-nesting depth is positive and
`paragraphGap` otherwise. -/
theorem c7_paragraph_gap (env : Env) (cs : List MDNode) (s t : RState)
    (h : handleChildren env cs s = .ok t) :
    handleChild env (.paragraph cs) s
      = .ok (emit (.text "\n"
          { paragraphGap := some (if 0 < t.listIndent
              then env.settings.listItemGap else env.settings.paragraphGap) }) t) := by
  show rbind (handleChildren env cs s) _ = _
  rw [h]
  rfl

/-- Claim C7 witness: empty paragraph from `init0` (depth 0, so the
paragraph gap is used). -/
theorem c7_paragraph_gap_witness :
    handleChild env0 (.paragraph []) init0
      = .ok (emit (.text "\n"
          { paragraphGap := some (if 0 < init0.listIndent
              then env0.settings.listItemGap else env0.settings.paragraphGap) })
          init0) :=
  c7_paragraph_gap env0 [] init0 init0 rfl

/-- Claim C8: when a list handler returns successfully, the state after
the item loop has the incremented nesting counter, and the final state
decrements it and advances the vertical cursor by exactly
`paragraphGap − listItemGap` when the counter returns to 0 (outermost
list) and by nothing otherwise. -/
theorem c8_list_close_gap (env : Env) (ordered : Bool) (start : Option Int)
    (items : List (List MDNode)) (s t : RState)
    (h : handleChild env (.list ordered start items) s = .ok t) :
    ∃ u, (if ordered
        then handleItemsOrdered env items (startOrDefault start)
          { s with listIndent := s.listIndent + 1 }
        else handleItemsUnordered env items
          { s with listIndent := s.listIndent + 1 }) = .ok u
      ∧ u.listIndent = s.listIndent + 1
      ∧ t = { u with
              listIndent := s.listIndent
              y := u.y + (if s.listIndent = 0
                then env.settings.paragraphGap - env.settings.listItemGap
                else 0) } := by
  simp only [handleChild] at h
  rw [rbind_ok] at h
  obtain ⟨u, hu, ht⟩ := h
  simp only [Except.ok.injEq] at ht
  have hsr : StyleRestored { s with listIndent := s.listIndent + 1 } u := by
    split at hu
    · exact handleItemsOrdered_styleRestored env items _ _ u hu
    · exact handleItemsUnordered_styleRestored env items _ u hu
  have hli : u.listIndent = s.listIndent + 1 := hsr.1
  refine ⟨u, hu, hli, ?_⟩
  subst ht
  by_cases hs : s.listIndent = 0
  · have hcond : ({ u with listIndent := u.listIndent - 1 } : RState).listIndent
        = 0 := by
      show u.listIndent - 1 = 0
      omega
    rw [if_pos hcond, if_pos hs]
    have hval : u.listIndent - 1 = s.listIndent := by omega
    show ({ u with
      listIndent := u.listIndent - 1
      y := u.y + (env.settings.paragraphGap - env.settings.listItemGap) } : RState)
        = _
    rw [hval]
  · have hcond : ¬ ({ u with listIndent := u.listIndent - 1 } : RState).listIndent
        = 0 := by
      show ¬ u.listIndent - 1 = 0
      omega
    rw [if_neg hcond, if_neg hs]
    have hval : u.listIndent - 1 = s.listIndent := by omega
    show ({ u with listIndent := u.listIndent - 1 } : RState)
        = { u with
            listIndent := s.listIndent
            y := u.y + 0 }
    rw [hval, add_zero]

/-- Claim C8 witness: a one-item unordered list from `init0` (depth
returns to 0, so the reconciling gap applies). -/
theorem c8_list_close_gap_witness :
    ∃ u, (if false
        then handleItemsOrdered env0 [[]] (startOrDefault none)
          { init0 with listIndent := init0.listIndent + 1 }
        else handleItemsUnordered env0 [[]]
          { init0 with listIndent := init0.listIndent + 1 }) = .ok u
      ∧ u.listIndent = init0.listIndent + 1
      ∧ stateOf (handleChild env0 (.list false none [[]]) init0)
          = { u with
              listIndent := init0.listIndent
              y := u.y + (if init0.listIndent = 0
                then env0.settings.paragraphGap - env0.settings.listItemGap
                else 0) } :=
  c8_list_close_gap env0 false none [[]] init0
    (stateOf (handleChild env0 (.list false none [[]]) init0)) rfl

/-- Claim C9: every text node is emitted as one continued-text
operation whose string is the value with each whitespace run collapsed,
carrying the active link (underline exactly when a link is active) and
the strike flag; `collapseRuns false` agrees with the specification's
maximal-run reading `collapseSpec`; and "a\n\n  b" collapses to
"a b". -/
theorem c9_text_collapse :
    (∀ (env : Env) (v : String) (s : RState),
      handleText env v s = .ok (emit (.text (collapseWs v)
        { continued := some true, link := some s.link,
          underline := some s.link.isSome, strike := some s.strike }) s))
    ∧ (∀ l : List Char, collapseRuns false l = collapseSpec l)
    ∧ collapseWs "a\n\n  b" = "a b" := by
  exact ⟨fun env v s => rfl, collapseRuns_eq_spec, rfl⟩

/-- Claim C10: rendering `c10Tree` (strong/emphasis/delete/link around
an unsupported node, inside a list inside a quote) with the report
policy aborts with the error naming "html", and the carried renderer
state keeps the mid-traversal values: bold, italic and strike still
set, the link still active, and both nesting counters still 1; a
subsequent render on the same instance starts from that leaked state
and therefore selects the bold-italic font for its baseline setup. -/
theorem c10_leaked_state :
    handleChild envThrow c10Tree init0
      = .error ({ message := "Unsupported markdown feature html" }, c10Leak)
    ∧ c10Leak.bold = true ∧ c10Leak.italic = true ∧ c10Leak.strike = true
    ∧ c10Leak.link = some "u" ∧ c10Leak.listIndent = 1
    ∧ c10Leak.blockquoteIndex = 1
    ∧ render envThrow [] c10Leak
      = .ok (emit (.setFont "Helvetica-BoldOblique")
          (emit (.setFontSize 10) c10Leak)) := by
  exact ⟨rfl, rfl, rfl, rfl, rfl, rfl, rfl, rfl⟩

end PdfkitMarkdown
